import Mathlib

/-!
Shallow embedding of the record-discovery-and-extraction engine of
`src/server.js` (the body of the `page.evaluate` callback inside
`scrapeWebsite`, lines 260–511): candidate discovery (`findJobElements`),
per-field extraction (`getTextBySelectors`), record assembly and clean-up
(`extractJobData`), keyword filtering and emission (the main loop).

Strings are modelled as `List Char`.  The document tree is modelled as a
first-order oracle: an association list from selector strings to query
results, where a query can fail (`QRes.fail`), modelling a thrown
exception on a malformed selector.
-/

abbrev Str := List Char

/-- Result of a DOM query: either the query threw (malformed selector) or
it returned a value. -/
inductive QRes (α : Type) where
  | fail : QRes α
  | ok : α → QRes α
deriving DecidableEq

/-- The JavaScript whitespace class (`\s`, and the characters removed by
`String.prototype.trim`), restricted to its common members. -/
def isWS (c : Char) : Bool :=
  c == ' ' || c == '\t' || c == '\n' || c == '\r' ||
  c == '\x0b' || c == '\x0c' || c == ' ' || c == '﻿'

/-- Char-wise lower-casing, modelling `String.prototype.toLowerCase`. -/
def toLowerStr (s : Str) : Str := s.map Char.toLower

/-- `s.startsWith(p)` of JavaScript: `startsWithB s p = true` iff `p` is an
initial segment of `s`. -/
def startsWithB : Str → Str → Bool
  | _, [] => true
  | [], _ :: _ => false
  | c :: s, d :: p => c == d && startsWithB s p

/-- `s.includes(p)` of JavaScript (also the semantics of testing an
alternation-of-literals regular expression against `s`): `p` occurs as a
contiguous substring of `s`. -/
def includesB (s p : Str) : Bool :=
  startsWithB s p ||
    match s with
    | [] => false
    | _ :: s' => includesB s' p

/-- Left part of `String.prototype.trim`: drop leading whitespace. -/
def trimLeftStr (s : Str) : Str := s.dropWhile isWS

/-- Right part of `String.prototype.trim`: drop trailing whitespace. -/
def trimRightStr (s : Str) : Str := (s.reverse.dropWhile isWS).reverse

/-- `String.prototype.trim`: drop leading and trailing whitespace. -/
def jsTrim (s : Str) : Str := trimRightStr (trimLeftStr s)

/-- Worker for `replace(/\s+/g, ' ')`: the flag records whether we are
inside a whitespace run whose single replacement space was already
emitted. -/
def collapseGo : Bool → Str → Str
  | _, [] => []
  | inRun, c :: rest =>
    if isWS c then
      if inRun then collapseGo true rest
      else ' ' :: collapseGo true rest
    else c :: collapseGo false rest

/-- `s.replace(/\s+/g, ' ')`: every maximal run of whitespace characters
becomes a single space. -/
def collapseWS (s : Str) : Str := collapseGo false s

/-- The clean-up applied to every string field of a job record
(`server.js` line 481): `job[key].trim().replace(/\s+/g, ' ')`. -/
def cleanField (s : Str) : Str := collapseWS (jsTrim s)

/-- The three-character ellipsis marker appended on truncation. -/
def ellipsis : Str := ['.', '.', '.']

/-- The clean-up applied to the `description` field (`server.js` lines
481–484): trim and collapse, then, if the result is longer than 500
characters, truncate to the first 500 and append `...`. -/
def cleanDescriptionField (s : Str) : Str :=
  let t := cleanField s
  if 500 < t.length then t.take 500 ++ ellipsis else t

/-- Data of an element reached by a sub-query: the extractor only reads
its text content and attributes. -/
structure ElemData where
  textContent : Str
  attrs : List (String × Str)
deriving DecidableEq

/-- A candidate element.  `subq` is the oracle for
`element.querySelector(sel)` with an arbitrary (possibly malformed)
selector: absent selectors return no match, recorded selectors may fail.
The three fixed, syntactically valid queries used by URL extraction
(`a[href]` inside, `closest('a[href]')`, `[href]` inside) are total
fields. -/
structure Elem where
  textContent : Str
  attrs : List (String × Str)
  subq : List (String × QRes (Option ElemData))
  qAHref : Option ElemData
  closestAHref : Option ElemData
  qAnyHref : Option ElemData
deriving DecidableEq

/-- `element.querySelector(sel)` for an arbitrary selector string. -/
def Elem.querySel (e : Elem) (sel : String) : QRes (Option ElemData) :=
  match e.subq.find? (fun p => p.1 == sel) with
  | some p => p.2
  | none => QRes.ok none

/-- `el.getAttribute(name)` on a sub-query result: `none` models `null`. -/
def getAttrD (el : ElemData) (name : String) : Option Str :=
  (el.attrs.find? (fun p => p.1 == name)).map (fun p => p.2)

/-- `element.getAttribute(name)` on a candidate element. -/
def getAttrE (e : Elem) (name : String) : Option Str :=
  (e.attrs.find? (fun p => p.1 == name)).map (fun p => p.2)

/-- JavaScript `a || b` where `a` is a nullable string: `null` and the
empty string are falsy and fall through to `b`. -/
def truthyOr (a : Option Str) (b : Str) : Str :=
  match a with
  | some s => if s = [] then b else s
  | none => b

/-- The document: an oracle from selector strings to the result of
`document.querySelectorAll`; absent selectors match nothing, recorded
selectors may fail (malformed selector throws). -/
abbrev Doc := List (String × QRes (List Elem))

def docQueryAll (d : Doc) (sel : String) : QRes (List Elem) :=
  match d.find? (fun p => p.1 == sel) with
  | some p => p.2
  | none => QRes.ok []

/-- The caller-supplied selector configuration; any field may be absent. -/
structure SelectorConfig where
  jobContainer : Option String
  title : Option String
  company : Option String
  location : Option String
  salary : Option String
  description : Option String
  date : Option String
deriving DecidableEq

/-- The empty configuration (`selectors = {}` by default). -/
def emptyConfig : SelectorConfig :=
  ⟨none, none, none, none, none, none, none⟩

/-- JavaScript truthiness of an optional custom selector, as used both by
the ternary `customSelectors.jobContainer ? [..] : []` and by
`.filter(Boolean)`: `undefined` and the empty string contribute nothing. -/
def optTruthy : Option String → List String
  | some s => if s = "" then [] else [s]
  | none => []

/-- The fixed built-in container-selector priority list of
`findJobElements` (`server.js` lines 299–318). -/
def builtinContainerSelectors : List String :=
  ["[data-jk]", ".job_seen_beacon", ".job-card", ".job-item",
   ".job-listing", ".vacancy", ".position", ".career-item", ".job-result",
   ".opening", "[class*=\"job\"]", "[class*=\"position\"]",
   "[class*=\"vacancy\"]", "[class*=\"career\"]", "article", ".card",
   ".list-item", ".row", "tr", "li"]

/-- The full discovery cascade: custom container selector (if truthy)
first, then the built-ins. -/
def containerCascade (cfg : SelectorConfig) : List String :=
  optTruthy cfg.jobContainer ++ builtinContainerSelectors

/-- The fixed relevance lexicon of the content filter
(`/job|position|vacancy|career|hiring|employment|work|role|opportunity/`). -/
def jobLexicon : List Str :=
  ["job", "position", "vacancy", "career", "hiring", "employment", "work",
   "role", "opportunity"].map String.toList

/-- The regular-expression test of the content filter: some lexicon word
occurs as a substring of the (already lower-cased) text. -/
def hasJobKeywords (text : Str) : Bool :=
  jobLexicon.any (fun w => includesB text w)

/-- The content filter of `findJobElements` (`server.js` lines 330–335):
lower-case the text content, require a lexicon keyword and a text length
strictly greater than 50. -/
def contentFilter (el : Elem) : Bool :=
  let text := toLowerStr el.textContent
  hasJobKeywords text && decide (50 < text.length)

/-- The selector loop of `findJobElements`: try each selector in order; a
failed query is skipped; a non-empty query result is filtered, and the
first non-empty filtered set wins. -/
def findGo (doc : Doc) : List String → List Elem
  | [] => []
  | sel :: rest =>
    match docQueryAll doc sel with
    | QRes.fail => findGo doc rest
    | QRes.ok found =>
      if found.isEmpty then findGo doc rest
      else
        let filtered := found.filter contentFilter
        if filtered.isEmpty then findGo doc rest else filtered

/-- `findJobElements` (`server.js` lines 293–348). -/
def findJobElements (doc : Doc) (cfg : SelectorConfig) : List Elem :=
  findGo doc (containerCascade cfg)

/-- The value read from a matched sub-element (`server.js` lines
499–501): `el.getAttribute('title') || el.getAttribute('aria-label') ||
el.textContent.trim()`. -/
def elemValue (el : ElemData) : Str :=
  truthyOr (getAttrD el "title")
    (truthyOr (getAttrD el "aria-label") (jsTrim el.textContent))

/-- `getTextBySelectors` (`server.js` lines 492–508): skip falsy
selectors, skip selectors whose query throws, skip selectors matching no
element; the first selector matching an element returns that element's
value (which may be empty); if none matches, return `null`. -/
def getTextBySelectors (e : Elem) : List String → Option Str
  | [] => none
  | sel :: rest =>
    if sel = "" then getTextBySelectors e rest
    else
      match e.querySel sel with
      | QRes.fail => getTextBySelectors e rest
      | QRes.ok none => getTextBySelectors e rest
      | QRes.ok (some el) => some (elemValue el)

/-- `getTextBySelectors(..) || ''` as used at every field assignment. -/
def orEmpty : Option Str → Str
  | some s => s
  | none => []

def titleSelectors (cfg : SelectorConfig) : List String :=
  optTruthy cfg.title ++
  ["h1", "h2", "h3", "h4", "[data-testid*=\"title\"]", "[class*=\"title\"]",
   "[class*=\"job-title\"]", "[class*=\"position\"]", "a[href*=\"job\"]",
   ".job-link", "strong", ".name"]

def companySelectors (cfg : SelectorConfig) : List String :=
  optTruthy cfg.company ++
  ["[data-testid*=\"company\"]", "[class*=\"company\"]",
   "[class*=\"employer\"]", "[class*=\"organization\"]", ".company-name",
   ".employer", ".org"]

def locationSelectors (cfg : SelectorConfig) : List String :=
  optTruthy cfg.location ++
  ["[data-testid*=\"location\"]", "[class*=\"location\"]",
   "[class*=\"city\"]", "[class*=\"address\"]", ".location", ".city",
   ".address"]

def salarySelectors (cfg : SelectorConfig) : List String :=
  optTruthy cfg.salary ++
  ["[data-testid*=\"salary\"]", "[class*=\"salary\"]", "[class*=\"pay\"]",
   "[class*=\"wage\"]", "[class*=\"compensation\"]", ".salary", ".pay",
   ".wage"]

def descriptionSelectors (cfg : SelectorConfig) : List String :=
  optTruthy cfg.description ++
  ["[data-testid*=\"description\"]", "[data-testid*=\"snippet\"]",
   "[class*=\"description\"]", "[class*=\"summary\"]",
   "[class*=\"snippet\"]", ".description", ".summary", ".snippet", "p"]

def dateSelectors (cfg : SelectorConfig) : List String :=
  optTruthy cfg.date ++
  ["[data-testid*=\"date\"]", "[class*=\"date\"]", "[class*=\"time\"]",
   "[class*=\"posted\"]", ".date", ".time", ".posted", "time"]

/-- The scheme and host of a parsed base URL, as exposed by the `URL`
constructor: `protocol` keeps its trailing colon. -/
structure ParsedUrl where
  protocol : Str
  host : Str
deriving DecidableEq

/-- Split a hierarchical URL at its first `://`, returning the scheme
(without the colon) and the remainder. -/
def schemeSplit : Str → Option (Str × Str)
  | [] => none
  | c :: rest =>
    if c == ':' then
      match rest with
      | '/' :: '/' :: r => some ([], r)
      | _ => none
    else
      match schemeSplit rest with
      | some p => some (c :: p.1, p.2)
      | none => none

/-- Model of `new URL(base)` for hierarchical (`scheme://host/...`) URLs:
`none` models a thrown `TypeError`; on success `protocol` is the scheme
followed by `:` and `host` runs up to the next `/`, `?` or `#`. -/
def parseUrl (s : Str) : Option ParsedUrl :=
  match schemeSplit s with
  | none => none
  | some p =>
    if p.1 = [] then none
    else some ⟨p.1 ++ [':'],
      p.2.takeWhile (fun c => !(c == '/') && !(c == '?') && !(c == '#'))⟩

/-- The href-rewriting of `extractJobData` (`server.js` lines 446–453): a
href starting with `/` gets the base URL's protocol and host prepended
(failing if the base URL does not parse); a href not starting with
`http` is appended to the base URL after a `/`; anything else (a href
starting with `http`) is kept as is. -/
def resolveHref (baseUrl href : Str) : QRes Str :=
  if startsWithB href ['/'] then
    match parseUrl baseUrl with
    | some u => QRes.ok (u.protocol ++ ['/', '/'] ++ u.host ++ href)
    | none => QRes.fail
  else if !startsWithB href "http".toList then
    QRes.ok (baseUrl ++ ['/'] ++ href)
  else
    QRes.ok href

/-- The link search of `extractJobData` (`server.js` lines 441–443):
`element.querySelector('a[href]') || element.closest('a[href]') ||
element.querySelector('[href]')`. -/
def findLink (e : Elem) : Option ElemData :=
  match e.qAHref with
  | some x => some x
  | none =>
    match e.closestAHref with
    | some x => some x
    | none => e.qAnyHref

/-- The URL extraction of `extractJobData` (`server.js` lines 441–455):
empty when no link element or no truthy href is found; otherwise the
rewritten href. -/
def extractUrl (e : Elem) (baseUrl : Str) : QRes Str :=
  match findLink e with
  | none => QRes.ok []
  | some link =>
    match getAttrD link "href" with
    | none => QRes.ok []
    | some href => if href = [] then QRes.ok [] else resolveHref baseUrl href

/-- The output record. `scrapedAt` and the random token behind `jobId`
are supplied as parameters of the embedding. -/
structure Job where
  title : Str
  company : Str
  location : Str
  salary : Str
  description : Str
  url : Str
  datePosted : Str
  jobId : Str
  scrapedAt : Str
  source : Str
deriving DecidableEq

/-- The clean-up loop of `extractJobData` (`server.js` lines 479–486):
trim and collapse every string field; additionally truncate the
description at 500 characters. -/
def cleanupJob (j : Job) : Job :=
  { title := cleanField j.title,
    company := cleanField j.company,
    location := cleanField j.location,
    salary := cleanField j.salary,
    description := cleanDescriptionField j.description,
    url := cleanField j.url,
    datePosted := cleanField j.datePosted,
    jobId := cleanField j.jobId,
    scrapedAt := cleanField j.scrapedAt,
    source := cleanField j.source }

/-- `extractJobData` (`server.js` lines 351–489).  `now` models
`new Date().toISOString()` and `rndTok` the random token of the jobId
fallback.  The only failure point is `new URL(baseUrl)` on a rooted
href; a failure is caught per-candidate by the caller. -/
def extractJobData (e : Elem) (baseUrl : Str) (cfg : SelectorConfig)
    (now rndTok : Str) : QRes Job :=
  match extractUrl e baseUrl with
  | QRes.fail => QRes.fail
  | QRes.ok url =>
    QRes.ok (cleanupJob
      { title := orEmpty (getTextBySelectors e (titleSelectors cfg)),
        company := orEmpty (getTextBySelectors e (companySelectors cfg)),
        location := orEmpty (getTextBySelectors e (locationSelectors cfg)),
        salary := orEmpty (getTextBySelectors e (salarySelectors cfg)),
        description :=
          orEmpty (getTextBySelectors e (descriptionSelectors cfg)),
        url := url,
        datePosted := orEmpty (getTextBySelectors e (dateSelectors cfg)),
        jobId := truthyOr (getAttrE e "data-jk")
          (truthyOr (getAttrE e "id")
            (truthyOr (getAttrE e "data-id")
              ('j' :: 'o' :: 'b' :: '_' :: rndTok))),
        scrapedAt := now,
        source := baseUrl })

/-- The search text of the keyword filter (`server.js` line 276):
`` `${job.title} ${job.description} ${job.company}`.toLowerCase() ``. -/
def jobSearchText (j : Job) : Str :=
  toLowerStr (j.title ++ [' '] ++ j.description ++ [' '] ++ j.company)

/-- `keywords.some(keyword => jobText.includes(keyword.toLowerCase()))`. -/
def hasKeywordMatch (keywords : List Str) (j : Job) : Bool :=
  keywords.any (fun k => includesB (jobSearchText j) (toLowerStr k))

/-- The keyword gate of the main loop (`server.js` lines 275–282): only
applied when the keyword list is non-empty. -/
def passesKeywordFilter (keywords : List Str) (j : Job) : Bool :=
  if 0 < keywords.length then hasKeywordMatch keywords j else true

/-- The emission gate of the main loop (`server.js` line 284):
`job.title && job.title.trim().length > 0`. -/
def emitCheck (j : Job) : Bool :=
  !j.title.isEmpty && decide (0 < (jsTrim j.title).length)

/-- The main extraction loop (`server.js` lines 268–290) over the
candidate list already truncated to the limit: extraction failures skip
the candidate, then the keyword gate, then the emission gate. -/
def buildJobList (cfg : SelectorConfig) (baseUrl : Str)
    (keywords : List Str) (now : Str) (rnd : Nat → Str) :
    Nat → List Elem → List Job
  | _, [] => []
  | i, e :: rest =>
    let tail := buildJobList cfg baseUrl keywords now rnd (i + 1) rest
    match extractJobData e baseUrl cfg now (rnd i) with
    | QRes.fail => tail
    | QRes.ok j =>
      if passesKeywordFilter keywords j then
        if emitCheck j then j :: tail else tail
      else tail

/-- The whole `page.evaluate` callback (`server.js` lines 260–511):
discover candidates, keep at most `limit` of them, extract, filter,
emit. -/
def scrapeJobs (doc : Doc) (cfg : SelectorConfig) (keywords : List Str)
    (limit : Nat) (baseUrl : Str) (now : Str) (rnd : Nat → Str) :
    List Job :=
  buildJobList cfg baseUrl keywords now rnd 0
    ((findJobElements doc cfg).take limit)

/-!  ### A canonical-form kit for the whitespace normalization  -/

/-- The first character, if any, is not whitespace. -/
def startsOK : Str → Bool
  | [] => true
  | c :: _ => !isWS c

/-- The last character, if any, is not whitespace. -/
def endsOK (s : Str) : Bool := startsOK s.reverse

/-- Every whitespace character is a plain space. -/
def allWSspace (s : Str) : Bool := s.all (fun c => !isWS c || c == ' ')

/-- No two adjacent characters are both whitespace. -/
def noTwoWS : Str → Bool
  | [] => true
  | c :: rest => (if isWS c then startsOK rest else true) && noTwoWS rest

theorem startsOK_append (xs ys : Str) (h : xs ≠ []) :
    startsOK (xs ++ ys) = startsOK xs := by
  cases xs with
  | nil => exact absurd rfl h
  | cons c t => rfl

theorem endsOK_cons (c : Char) (v : Str) :
    endsOK (c :: v) = if v = [] then !isWS c else endsOK v := by
  by_cases hv : v = []
  · subst hv; simp [endsOK, startsOK]
  · rw [if_neg hv]
    unfold endsOK
    rw [List.reverse_cons, startsOK_append]
    simpa using hv

theorem startsOK_dropWhile (s : Str) : startsOK (s.dropWhile isWS) = true := by
  induction s with
  | nil => rfl
  | cons c t ih =>
    rw [List.dropWhile_cons]
    by_cases h : isWS c = true
    · rw [if_pos h]; exact ih
    · rw [if_neg h]
      have hf : isWS c = false := by simpa using h
      simp [startsOK, hf]

theorem dropWhile_of_startsOK (s : Str) (h : startsOK s = true) :
    s.dropWhile isWS = s := by
  cases s with
  | nil => rfl
  | cons c t =>
    rw [List.dropWhile_cons]
    have : isWS c = false := by simpa [startsOK] using h
    simp [this]

theorem exists_prepend_dropWhile (s : Str) :
    ∃ t, t ++ s.dropWhile isWS = s := by
  induction s with
  | nil => exact ⟨[], rfl⟩
  | cons c u ih =>
    rw [List.dropWhile_cons]
    by_cases h : isWS c = true
    · obtain ⟨t, ht⟩ := ih
      exact ⟨c :: t, by simp [h, ht]⟩
    · exact ⟨[], by simp [h]⟩

theorem startsOK_trimRight (s : Str) (h : startsOK s = true) :
    startsOK (trimRightStr s) = true := by
  obtain ⟨t, ht⟩ := exists_prepend_dropWhile s.reverse
  have hs : s = (s.reverse.dropWhile isWS).reverse ++ t.reverse := by
    have := congrArg List.reverse ht
    simpa using this.symm
  unfold trimRightStr
  by_cases hu : (s.reverse.dropWhile isWS).reverse = []
  · simp [hu, startsOK]
  · rw [hs, startsOK_append _ _ hu] at h
    exact h

theorem endsOK_trimRight (s : Str) : endsOK (trimRightStr s) = true := by
  unfold endsOK trimRightStr
  rw [List.reverse_reverse]
  exact startsOK_dropWhile _

theorem trimRight_of_endsOK (s : Str) (h : endsOK s = true) :
    trimRightStr s = s := by
  unfold trimRightStr
  rw [dropWhile_of_startsOK _ h, List.reverse_reverse]

theorem startsOK_jsTrim (s : Str) : startsOK (jsTrim s) = true :=
  startsOK_trimRight _ (startsOK_dropWhile s)

theorem endsOK_jsTrim (s : Str) : endsOK (jsTrim s) = true :=
  endsOK_trimRight _

theorem jsTrim_of_canon (s : Str) (h1 : startsOK s = true)
    (h2 : endsOK s = true) : jsTrim s = s := by
  unfold jsTrim trimLeftStr
  rw [dropWhile_of_startsOK s h1, trimRight_of_endsOK s h2]


theorem collapseGo_cons_ws_false {c : Char} (t : Str) (h : isWS c = true) :
    collapseGo false (c :: t) = ' ' :: collapseGo true t := by
  simp [collapseGo, h]

theorem collapseGo_cons_ws_true {c : Char} (t : Str) (h : isWS c = true) :
    collapseGo true (c :: t) = collapseGo true t := by
  simp [collapseGo, h]

theorem collapseGo_cons_nws {c : Char} (b : Bool) (t : Str)
    (h : isWS c = false) : collapseGo b (c :: t) = c :: collapseGo false t := by
  simp [collapseGo, h]

theorem allWSspace_cons (c : Char) (t : Str) :
    allWSspace (c :: t) = ((!isWS c || c == ' ') && allWSspace t) := rfl

theorem noTwoWS_cons (c : Char) (t : Str) :
    noTwoWS (c :: t) = ((if isWS c then startsOK t else true) && noTwoWS t) :=
  rfl

theorem startsOK_collapseGo_true (s : Str) :
    startsOK (collapseGo true s) = true := by
  induction s with
  | nil => rfl
  | cons c t ih =>
    by_cases h : isWS c = true
    · rw [collapseGo_cons_ws_true t h]; exact ih
    · have hf : isWS c = false := by simpa using h
      rw [collapseGo_cons_nws true t hf]
      simp [startsOK, hf]

theorem startsOK_collapseGo_false (s : Str) (h : startsOK s = true) :
    startsOK (collapseGo false s) = true := by
  cases s with
  | nil => rfl
  | cons c t =>
    have hf : isWS c = false := by simpa [startsOK] using h
    rw [collapseGo_cons_nws false t hf]
    simp [startsOK, hf]

theorem allWSspace_collapseGo (b : Bool) (s : Str) :
    allWSspace (collapseGo b s) = true := by
  induction s generalizing b with
  | nil => cases b <;> rfl
  | cons c t ih =>
    by_cases h : isWS c = true
    · cases b with
      | true => rw [collapseGo_cons_ws_true t h]; exact ih true
      | false =>
        rw [collapseGo_cons_ws_false t h, allWSspace_cons]
        rw [ih true]
        simp
    · have hf : isWS c = false := by simpa using h
      rw [collapseGo_cons_nws b t hf, allWSspace_cons, ih false, hf]
      simp

theorem noTwoWS_collapseGo (b : Bool) (s : Str) :
    noTwoWS (collapseGo b s) = true := by
  induction s generalizing b with
  | nil => cases b <;> rfl
  | cons c t ih =>
    by_cases h : isWS c = true
    · cases b with
      | true => rw [collapseGo_cons_ws_true t h]; exact ih true
      | false =>
        rw [collapseGo_cons_ws_false t h, noTwoWS_cons]
        rw [ih true, startsOK_collapseGo_true t]
        simp [isWS]
    · have hf : isWS c = false := by simpa using h
      rw [collapseGo_cons_nws b t hf, noTwoWS_cons, ih false, hf]
      simp

theorem collapseGo_false_ne_nil (s : Str) (h : s ≠ []) :
    collapseGo false s ≠ [] := by
  cases s with
  | nil => exact absurd rfl h
  | cons c t =>
    by_cases hw : isWS c = true
    · rw [collapseGo_cons_ws_false t hw]; simp
    · have hf : isWS c = false := by simpa using hw
      rw [collapseGo_cons_nws false t hf]; simp

theorem collapseGo_true_ne_nil (s : Str) (he : endsOK s = true) (h : s ≠ []) :
    collapseGo true s ≠ [] := by
  induction s with
  | nil => exact absurd rfl h
  | cons c t ih =>
    by_cases hw : isWS c = true
    · have ht : t ≠ [] := by
        intro hnil
        subst hnil
        rw [endsOK_cons] at he
        simp [hw] at he
      have het : endsOK t = true := by
        rw [endsOK_cons, if_neg ht] at he
        exact he
      rw [collapseGo_cons_ws_true t hw]
      exact ih het ht
    · have hf : isWS c = false := by simpa using hw
      rw [collapseGo_cons_nws true t hf]; simp

theorem endsOK_collapseGo (b : Bool) (s : Str) (he : endsOK s = true) :
    endsOK (collapseGo b s) = true := by
  induction s generalizing b with
  | nil => cases b <;> rfl
  | cons c t ih =>
    by_cases hw : isWS c = true
    · have ht : t ≠ [] := by
        intro hnil
        subst hnil
        rw [endsOK_cons] at he
        simp [hw] at he
      have het : endsOK t = true := by
        rw [endsOK_cons, if_neg ht] at he
        exact he
      cases b with
      | true => rw [collapseGo_cons_ws_true t hw]; exact ih true het
      | false =>
        rw [collapseGo_cons_ws_false t hw]
        rw [endsOK_cons, if_neg (collapseGo_true_ne_nil t het ht)]
        exact ih true het
    · have hf : isWS c = false := by simpa using hw
      by_cases ht : t = []
      · subst ht
        cases b <;>
          · rw [collapseGo_cons_nws _ _ hf]
            simp [collapseGo, endsOK, startsOK, hf]
      · have het : endsOK t = true := by
          rw [endsOK_cons, if_neg ht] at he
          exact he
        have hne : collapseGo false t ≠ [] := collapseGo_false_ne_nil t ht
        cases b <;>
          · rw [collapseGo_cons_nws _ _ hf]
            rw [endsOK_cons, if_neg hne]
            exact ih false het

theorem collapseGo_true_eq_false (s : Str) (h : startsOK s = true) :
    collapseGo true s = collapseGo false s := by
  cases s with
  | nil => rfl
  | cons c t =>
    have hf : isWS c = false := by simpa [startsOK] using h
    rw [collapseGo_cons_nws true t hf, collapseGo_cons_nws false t hf]

theorem collapseGo_canon_id (s : Str) (h1 : allWSspace s = true)
    (h2 : noTwoWS s = true) : collapseGo false s = s := by
  induction s with
  | nil => rfl
  | cons c t ih =>
    rw [allWSspace_cons, Bool.and_eq_true] at h1
    rw [noTwoWS_cons, Bool.and_eq_true] at h2
    by_cases hw : isWS c = true
    · have hc : c = ' ' := by
        have h1c := h1.1
        rw [hw] at h1c
        simpa using h1c
      have hst : startsOK t = true := by
        have h2c := h2.1
        rwa [if_pos hw] at h2c
      rw [collapseGo_cons_ws_false t hw,
        collapseGo_true_eq_false t hst, ih h1.2 h2.2, hc]
    · have hf : isWS c = false := by simpa using hw
      rw [collapseGo_cons_nws false t hf, ih h1.2 h2.2]

theorem startsOK_cleanField (s : Str) : startsOK (cleanField s) = true :=
  startsOK_collapseGo_false _ (startsOK_jsTrim s)

theorem endsOK_cleanField (s : Str) : endsOK (cleanField s) = true :=
  endsOK_collapseGo false _ (endsOK_jsTrim s)

theorem allWSspace_cleanField (s : Str) : allWSspace (cleanField s) = true :=
  allWSspace_collapseGo false _

theorem noTwoWS_cleanField (s : Str) : noTwoWS (cleanField s) = true :=
  noTwoWS_collapseGo false _

theorem cleanField_of_canon (s : Str) (h1 : startsOK s = true)
    (h2 : endsOK s = true) (h3 : allWSspace s = true)
    (h4 : noTwoWS s = true) : cleanField s = s := by
  unfold cleanField collapseWS
  rw [jsTrim_of_canon s h1 h2, collapseGo_canon_id s h3 h4]

theorem cleanField_idem (s : Str) : cleanField (cleanField s) = cleanField s :=
  cleanField_of_canon _ (startsOK_cleanField s) (endsOK_cleanField s)
    (allWSspace_cleanField s) (noTwoWS_cleanField s)

theorem startsOK_take (n : Nat) (s : Str) (h : startsOK s = true) :
    startsOK (s.take n) = true := by
  cases n with
  | zero => rfl
  | succ m =>
    cases s with
    | nil => rfl
    | cons c t => simpa [startsOK, List.take] using h

theorem allWSspace_take (n : Nat) (s : Str) (h : allWSspace s = true) :
    allWSspace (s.take n) = true := by
  rw [allWSspace, List.all_eq_true] at h ⊢
  intro c hc
  exact h c (List.take_subset n s hc)

theorem noTwoWS_take (n : Nat) (s : Str) (h : noTwoWS s = true) :
    noTwoWS (s.take n) = true := by
  induction s generalizing n with
  | nil => simp [noTwoWS]
  | cons c t ih =>
    cases n with
    | zero => rfl
    | succ m =>
      rw [noTwoWS_cons, Bool.and_eq_true] at h
      rw [List.take_succ_cons, noTwoWS_cons, Bool.and_eq_true]
      refine ⟨?_, ih m h.2⟩
      by_cases hw : isWS c = true
      · rw [if_pos hw]
        have := h.1
        rw [if_pos hw] at this
        exact startsOK_take m t this
      · rw [if_neg hw]

theorem noTwoWS_append (xs ys : Str) (hx : noTwoWS xs = true)
    (hy : noTwoWS ys = true) (hs : startsOK ys = true) :
    noTwoWS (xs ++ ys) = true := by
  induction xs with
  | nil => simpa using hy
  | cons c t ih =>
    rw [noTwoWS_cons, Bool.and_eq_true] at hx
    rw [List.cons_append, noTwoWS_cons, Bool.and_eq_true]
    refine ⟨?_, ih hx.2⟩
    by_cases hw : isWS c = true
    · rw [if_pos hw]
      cases t with
      | nil => simpa using hs
      | cons d u =>
        have := hx.1
        rw [if_pos hw] at this
        simpa [startsOK] using this
    · rw [if_neg hw]

theorem cleanDescriptionField_eq (s : Str) :
    cleanDescriptionField s =
      if 500 < (cleanField s).length
      then (cleanField s).take 500 ++ ellipsis else cleanField s := rfl

theorem endsOK_append_ellipsis (xs : Str) : endsOK (xs ++ ellipsis) = true := by
  unfold endsOK
  rw [List.reverse_append]
  simp [ellipsis, startsOK, isWS]

theorem cleanDescriptionField_idem (s : Str) :
    cleanDescriptionField (cleanDescriptionField s) = cleanDescriptionField s := by
  by_cases h : 500 < (cleanField s).length
  · have hstep : cleanDescriptionField s = (cleanField s).take 500 ++ ellipsis := by
      rw [cleanDescriptionField_eq, if_pos h]
    set t := cleanField s with ht
    have htake : (t.take 500).length = 500 := by
      rw [List.length_take]
      exact Nat.min_eq_left (Nat.le_of_lt h)
    have htne : t.take 500 ≠ [] := by
      intro hnil
      rw [hnil] at htake
      simp at htake
    have hcanon : cleanField (t.take 500 ++ ellipsis) = t.take 500 ++ ellipsis := by
      apply cleanField_of_canon
      · rw [startsOK_append _ _ htne]
        exact startsOK_take 500 t (startsOK_cleanField s)
      · exact endsOK_append_ellipsis _
      · rw [allWSspace, List.all_eq_true]
        intro c hc
        rcases List.mem_append.mp hc with hl | hr
        · have := allWSspace_take 500 t (allWSspace_cleanField s)
          rw [allWSspace, List.all_eq_true] at this
          exact this c hl
        · have hcd : c = '.' := by simpa [ellipsis] using hr
          subst hcd
          simp [isWS]
      · apply noTwoWS_append
        · exact noTwoWS_take 500 t (noTwoWS_cleanField s)
        · decide
        · decide
    have hlen : (t.take 500 ++ ellipsis).length = 503 := by
      rw [List.length_append, htake]
      rfl
    rw [hstep, cleanDescriptionField_eq, hcanon, hlen]
    rw [if_pos (by norm_num : (500:Nat) < 503)]
    have htl : (t.take 500 ++ ellipsis).take 500 = t.take 500 := by
      have h2 : (t.take 500 ++ ellipsis).take (t.take 500).length = t.take 500 :=
        List.take_left _ _
      rwa [htake] at h2
    rw [htl]
  · have hstep : cleanDescriptionField s = cleanField s := by
      rw [cleanDescriptionField_eq, if_neg h]
    rw [hstep, cleanDescriptionField_eq, cleanField_idem s, if_neg h]

/-- **C8.** Normalization — trim, whitespace-run collapse, and the
500-character description truncation with ellipsis — is idempotent on
records: applying the clean-up loop of `extractJobData` twice gives the
same record as applying it once, including when the first application
triggers the truncation. -/
theorem c8_normalize_idempotent (j : Job) :
    cleanupJob (cleanupJob j) = cleanupJob j := by
  unfold cleanupJob
  simp [cleanField_idem, cleanDescriptionField_idem]

/-- **C3.** Description truncation: whenever the trimmed-and-collapsed
description is longer than 500 characters it becomes its first 500
characters followed by the three-character ellipsis (so 503 characters
in total, in particular for a 501-character normalized input); a
normalized description of exactly 500 characters is kept unchanged with
no ellipsis. -/
theorem c3_description_truncation (s : Str) :
    (500 < (cleanField s).length →
      cleanDescriptionField s = (cleanField s).take 500 ++ ellipsis ∧
      (cleanDescriptionField s).length = 503) ∧
    ((cleanField s).length = 500 → cleanDescriptionField s = cleanField s) := by
  constructor
  · intro h
    have hstep : cleanDescriptionField s = (cleanField s).take 500 ++ ellipsis := by
      rw [cleanDescriptionField_eq, if_pos h]
    refine ⟨hstep, ?_⟩
    rw [hstep, List.length_append, List.length_take,
      Nat.min_eq_left (Nat.le_of_lt h)]
    rfl
  · intro h
    rw [cleanDescriptionField_eq, if_neg (by rw [h]; exact Nat.lt_irrefl 500)]

theorem cleanField_replicate_a (n : Nat) :
    cleanField (List.replicate n 'a') = List.replicate n 'a' := by
  apply cleanField_of_canon
  · cases n with
    | zero => rfl
    | succ m => simp [List.replicate, startsOK, isWS]
  · unfold endsOK
    rw [List.reverse_replicate]
    cases n with
    | zero => rfl
    | succ m => simp [List.replicate, startsOK, isWS]
  · rw [allWSspace, List.all_eq_true]
    intro c hc
    have : c = 'a' := List.eq_of_mem_replicate hc
    subst this
    simp [isWS]
  · induction n with
    | zero => rfl
    | succ m ih =>
      rw [List.replicate_succ, noTwoWS_cons, ih]
      simp [isWS]

/-- Witness for C3: a 501-character description is truncated to 500
characters plus the ellipsis (503 in total), a 500-character one is kept
unchanged. -/
theorem c3_witness :
    500 < (cleanField (List.replicate 501 'a')).length ∧
    cleanDescriptionField (List.replicate 501 'a') =
      (cleanField (List.replicate 501 'a')).take 500 ++ ellipsis ∧
    (cleanDescriptionField (List.replicate 501 'a')).length = 503 ∧
    (cleanField (List.replicate 500 'a')).length = 500 ∧
    cleanDescriptionField (List.replicate 500 'a') =
      cleanField (List.replicate 500 'a') := by
  have h501 : (cleanField (List.replicate 501 'a')).length = 501 := by
    rw [cleanField_replicate_a, List.length_replicate]
  have h500 : (cleanField (List.replicate 500 'a')).length = 500 := by
    rw [cleanField_replicate_a, List.length_replicate]
  have hlt : 500 < (cleanField (List.replicate 501 'a')).length := by
    rw [h501]; norm_num
  obtain ⟨ha, hb⟩ := (c3_description_truncation (List.replicate 501 'a')).1 hlt
  exact ⟨hlt, ha, hb, h500,
    (c3_description_truncation (List.replicate 500 'a')).2 h500⟩

/-!  ### Substring semantics of `startsWith` / `includes`  -/

theorem startsWithB_iff (s p : Str) :
    startsWithB s p = true ↔ ∃ r, s = p ++ r := by
  induction p generalizing s with
  | nil =>
    simp only [List.nil_append]
    constructor
    · intro _
      exact ⟨s, rfl⟩
    · intro _
      cases s <;> rfl
  | cons d p ih =>
    cases s with
    | nil =>
      constructor
      · intro h
        exact absurd h (by simp [startsWithB])
      · rintro ⟨r, hr⟩
        exact absurd hr (by simp)
    | cons c s =>
      constructor
      · intro h
        rw [show startsWithB (c :: s) (d :: p) = (c == d && startsWithB s p)
            from rfl, Bool.and_eq_true] at h
        obtain ⟨r, hr⟩ := (ih s).mp h.2
        exact ⟨r, by rw [List.cons_append, hr, beq_iff_eq.mp h.1]⟩
      · rintro ⟨r, hr⟩
        rw [List.cons_append] at hr
        obtain ⟨hc, hs⟩ := List.cons.injEq .. ▸ hr
        rw [show startsWithB (c :: s) (d :: p) = (c == d && startsWithB s p)
            from rfl, Bool.and_eq_true]
        exact ⟨beq_iff_eq.mpr hc, (ih s).mpr ⟨r, hs⟩⟩

theorem includesB_iff (s p : Str) :
    includesB s p = true ↔ ∃ l r, s = l ++ p ++ r := by
  induction s with
  | nil =>
    cases p with
    | nil => simp [includesB, startsWithB]
    | cons d q =>
      simp only [includesB, startsWithB, Bool.or_false]
      constructor
      · intro h
        exact absurd h (by simp)
      · rintro ⟨l, r, hr⟩
        exact absurd hr (by simp)
  | cons c s ih =>
    rw [show includesB (c :: s) p = (startsWithB (c :: s) p || includesB s p)
        from rfl, Bool.or_eq_true, startsWithB_iff, ih]
    constructor
    · rintro (⟨r, hr⟩ | ⟨l, r, hr⟩)
      · exact ⟨[], r, by simpa using hr⟩
      · exact ⟨c :: l, r, by simp [hr]⟩
    · rintro ⟨l, r, hr⟩
      cases l with
      | nil => exact Or.inl ⟨r, by simpa using hr⟩
      | cons x l =>
        right
        refine ⟨l, r, ?_⟩
        have := List.cons.injEq .. ▸ hr
        exact this.2

/-- **C9.** The relevance test of the content filter is a plain substring
match on the lower-cased text content, not a word match: it holds iff one
of the nine lexicon words occurs anywhere as a contiguous substring, so
text containing `network` or `workshop` satisfies the `work` entry. -/
theorem c9_relevance_is_substring_match :
    (∀ el : Elem,
      hasJobKeywords (toLowerStr el.textContent) = true ↔
        ∃ w ∈ jobLexicon, ∃ l r, toLowerStr el.textContent = l ++ w ++ r) ∧
    "work".toList ∈ jobLexicon ∧
    hasJobKeywords (toLowerStr "Network Engineering Dept".toList) = true ∧
    hasJobKeywords (toLowerStr "come to our workshop".toList) = true := by
  refine ⟨?_, by decide, by decide, by decide⟩
  intro el
  rw [hasJobKeywords, List.any_eq_true]
  constructor
  · rintro ⟨w, hw, hinc⟩
    exact ⟨w, hw, (includesB_iff _ w).mp hinc⟩
  · rintro ⟨w, hw, hdec⟩
    exact ⟨w, hw, (includesB_iff _ w).mpr hdec⟩

def c9Elem : Elem :=
  ⟨"Network Engineering Dept".toList, [], [], none, none, none⟩

/-- Witness for C9 at a concrete element whose text contains `work` only
inside the word `Network`. -/
theorem c9_witness :
    ∃ w ∈ jobLexicon, ∃ l r,
      toLowerStr c9Elem.textContent = l ++ w ++ r :=
  (c9_relevance_is_substring_match.1 c9Elem).mp (by decide)

/-- A 50-character text that contains the lexicon word `job`. -/
def text50 : Str := "job".toList ++ List.replicate 47 'a'

/-- A 51-character text that contains the lexicon word `job`. -/
def text51 : Str := "job".toList ++ List.replicate 48 'a'

def elemOfText (t : Str) : Elem := ⟨t, [], [], none, none, none⟩

/-- **C2, counterexample.**  An element whose text content is exactly 50
characters long and contains a lexicon keyword does NOT pass the content
filter: the source tests `text.length > 50`, so the 50-character boundary
is excluded, refuting the claim that 50 characters pass and 49 do not. -/
theorem c2_counterexample :
    (toLowerStr (elemOfText text50).textContent).length = 50 ∧
    hasJobKeywords (toLowerStr (elemOfText text50).textContent) = true ∧
    contentFilter (elemOfText text50) = false := by
  refine ⟨?_, by decide, by decide⟩
  simp [elemOfText, text50, toLowerStr]

/-- **C2, amended.**  The content filter accepts exactly the elements
whose lower-cased text contains a lexicon keyword and is strictly longer
than 50 characters: an element with 51 characters of keyword-bearing text
passes, one with 50 characters does not, and an element whose text
contains no lexicon keyword is excluded regardless of length. -/
theorem c2_content_filter_boundary :
    (∀ el : Elem, contentFilter el = true ↔
      hasJobKeywords (toLowerStr el.textContent) = true ∧
        50 < (toLowerStr el.textContent).length) ∧
    contentFilter (elemOfText text51) = true ∧
    contentFilter (elemOfText text50) = false ∧
    (∀ el : Elem, hasJobKeywords (toLowerStr el.textContent) = false →
      contentFilter el = false) := by
  refine ⟨?_, by decide, by decide, ?_⟩
  · intro el
    rw [contentFilter]
    simp [Bool.and_eq_true]
  · intro el h
    rw [contentFilter]
    simp [h]

/-- Witness for the amended C2: the general no-keyword clause applied to
a long element with no lexicon keyword, and the boundary clauses. -/
theorem c2_witness :
    contentFilter (elemOfText (List.replicate 80 'z')) = false ∧
    contentFilter (elemOfText text51) = true :=
  ⟨c2_content_filter_boundary.2.2.2 (elemOfText (List.replicate 80 'z'))
      (by decide),
   c2_content_filter_boundary.2.1⟩

/-- A record whose title ends in `dev` and whose description starts with
`ops`: the keyword `dev ops` spans the title–description boundary. -/
def crossJob : Job :=
  { title := "Senior dev".toList,
    company := "Acme".toList,
    location := [],
    salary := [],
    description := "ops engineer".toList,
    url := [],
    datePosted := [],
    jobId := "j1".toList,
    scrapedAt := [],
    source := [] }

/-- **C10.** The keyword filter matches against the single string built by
joining title, description and company with one space each, lower-cased
(keyword lower-cased too); consequently a keyword containing a space can
match across a field boundary even though it is a substring of no
individual field, as the concrete record shows. -/
theorem c10_keyword_join_semantics :
    (∀ (j : Job) (keywords : List Str),
      hasKeywordMatch keywords j = true ↔
        ∃ k ∈ keywords, ∃ l r,
          toLowerStr (j.title ++ [' '] ++ j.description ++ [' '] ++ j.company)
            = l ++ toLowerStr k ++ r) ∧
    (hasKeywordMatch ["dev ops".toList] crossJob = true ∧
     passesKeywordFilter ["dev ops".toList] crossJob = true ∧
     includesB (toLowerStr crossJob.title) (toLowerStr "dev ops".toList)
       = false ∧
     includesB (toLowerStr crossJob.description)
       (toLowerStr "dev ops".toList) = false ∧
     includesB (toLowerStr crossJob.company) (toLowerStr "dev ops".toList)
       = false) := by
  refine ⟨?_, by decide, by decide, by decide, by decide, by decide⟩
  intro j keywords
  rw [hasKeywordMatch, List.any_eq_true]
  constructor
  · rintro ⟨k, hk, hinc⟩
    exact ⟨k, hk, (includesB_iff _ _).mp hinc⟩
  · rintro ⟨k, hk, hdec⟩
    exact ⟨k, hk, (includesB_iff _ _).mpr hdec⟩

/-- Witness for C10: the join-semantics clause applied to the concrete
cross-boundary record and keyword list. -/
theorem c10_witness :
    ∃ k ∈ ["dev ops".toList], ∃ l r,
      toLowerStr (crossJob.title ++ [' '] ++ crossJob.description ++ [' ']
        ++ crossJob.company) = l ++ toLowerStr k ++ r :=
  (c10_keyword_join_semantics.1 crossJob ["dev ops".toList]).mp (by decide)

theorem buildJobList_title_ne_nil (cfg : SelectorConfig) (baseUrl : Str)
    (keywords : List Str) (now : Str) (rnd : Nat → Str) (i : Nat)
    (es : List Elem) (j : Job)
    (hj : j ∈ buildJobList cfg baseUrl keywords now rnd i es) :
    j.title ≠ [] := by
  induction es generalizing i with
  | nil => simp [buildJobList] at hj
  | cons e rest ih =>
    rw [buildJobList] at hj
    rcases hx : extractJobData e baseUrl cfg now (rnd i) with _ | j'
    · rw [hx] at hj
      exact ih (i + 1) hj
    · simp only [hx] at hj
      by_cases hk : passesKeywordFilter keywords j' = true
      · rw [if_pos hk] at hj
        by_cases he : emitCheck j' = true
        · rw [if_pos he] at hj
          rcases List.mem_cons.mp hj with hjj | hjt
          · subst hjj
            rw [emitCheck, Bool.and_eq_true] at he
            intro hnil
            rw [hnil] at he
            simp at he
          · exact ih (i + 1) hjt
        · rw [if_neg he] at hj
          exact ih (i + 1) hj
      · rw [if_neg hk] at hj
        exact ih (i + 1) hj

/-- **C1.** For every document, configuration, keyword list, limit, base
URL and choice of timestamp and random tokens, every record in the output
of the scrape loop has a non-empty title after normalization: a candidate
whose extracted title normalizes to the empty string is silently dropped,
never emitted. -/
theorem c1_title_nonempty (doc : Doc) (cfg : SelectorConfig)
    (keywords : List Str) (limit : Nat) (baseUrl : Str) (now : Str)
    (rnd : Nat → Str) (j : Job)
    (hj : j ∈ scrapeJobs doc cfg keywords limit baseUrl now rnd) :
    j.title ≠ [] :=
  buildJobList_title_ne_nil cfg baseUrl keywords now rnd 0 _ j hj

/-- A concrete candidate element: long, keyword-bearing text content, an
`h1` sub-element carrying the title, and no link. -/
def demoTitleEl : ElemData := ⟨"Backend Engineer".toList, []⟩

def demoElem : Elem :=
  { textContent :=
      "We are hiring a backend engineer to join our job team now".toList,
    attrs := [("data-jk", "jk123".toList)],
    subq := [("h1", QRes.ok (some demoTitleEl))],
    qAHref := none,
    closestAHref := none,
    qAnyHref := none }

def demoDoc : Doc := [("[data-jk]", QRes.ok [demoElem])]

def demoBase : Str := "https://example.com/jobs".toList

def demoNow : Str := "2026-01-01T00:00:00.000Z".toList

def demoRnd : Nat → Str := fun _ => "r4nd0m".toList

/-- The record the demo scenario produces. -/
def demoJob : Job :=
  { title := "Backend Engineer".toList,
    company := [],
    location := [],
    salary := [],
    description := [],
    url := [],
    datePosted := [],
    jobId := "jk123".toList,
    scrapedAt := demoNow,
    source := demoBase }

/-- Witness for C1: a concrete scrape emits a record, and the invariant
instantiated there gives its non-empty title. -/
theorem c1_witness :
    demoJob ∈ scrapeJobs demoDoc emptyConfig [] 20 demoBase demoNow demoRnd ∧
    demoJob.title ≠ [] := by
  have hm : demoJob ∈ scrapeJobs demoDoc emptyConfig [] 20 demoBase demoNow
      demoRnd := by decide
  exact ⟨hm,
    c1_title_nonempty demoDoc emptyConfig [] 20 demoBase demoNow demoRnd
      demoJob hm⟩


theorem findGo_cons_fail (doc : Doc) (sel : String) (rest : List String)
    (h : docQueryAll doc sel = QRes.fail) :
    findGo doc (sel :: rest) = findGo doc rest := by
  rw [findGo, h]

theorem findGo_cons_ok (doc : Doc) (sel : String) (rest : List String)
    (found : List Elem) (h : docQueryAll doc sel = QRes.ok found) :
    findGo doc (sel :: rest) =
      (if found.isEmpty then findGo doc rest
       else if (found.filter contentFilter).isEmpty then findGo doc rest
       else found.filter contentFilter) := by
  rw [findGo, h]

theorem getTextBySelectors_cons_fail (e : Elem) (sel : String)
    (rest : List String) (hs : sel ≠ "")
    (h : e.querySel sel = QRes.fail) :
    getTextBySelectors e (sel :: rest) = getTextBySelectors e rest := by
  rw [getTextBySelectors, if_neg hs, h]

theorem getTextBySelectors_cons_none (e : Elem) (sel : String)
    (rest : List String) (hs : sel ≠ "")
    (h : e.querySel sel = QRes.ok none) :
    getTextBySelectors e (sel :: rest) = getTextBySelectors e rest := by
  rw [getTextBySelectors, if_neg hs, h]

theorem getTextBySelectors_cons_some (e : Elem) (sel : String)
    (rest : List String) (el : ElemData) (hs : sel ≠ "")
    (h : e.querySel sel = QRes.ok (some el)) :
    getTextBySelectors e (sel :: rest) = some (elemValue el) := by
  rw [getTextBySelectors, if_neg hs, h]

theorem getTextBySelectors_cons_empty (e : Elem) (rest : List String) :
    getTextBySelectors e ("" :: rest) = getTextBySelectors e rest := by
  rw [getTextBySelectors, if_pos rfl]

/-- **C5.** If the caller-supplied container selector and at least one
built-in pattern both yield non-empty filtered sets, the candidate set is
exactly the custom selector's filtered matches: an earlier cascade
success means no later selector contributes anything. -/
theorem c5_custom_selector_priority (doc : Doc) (cfg : SelectorConfig)
    (c : String) (found : List Elem)
    (hcfg : cfg.jobContainer = some c) (hc : c ≠ "")
    (hq : docQueryAll doc c = QRes.ok found)
    (hf : found.filter contentFilter ≠ [])
    (hb : ∃ s ∈ builtinContainerSelectors, ∃ l,
      docQueryAll doc s = QRes.ok l ∧ l.filter contentFilter ≠ []) :
    findJobElements doc cfg = found.filter contentFilter := by
  have hfound : found ≠ [] := by
    intro hnil
    rw [hnil] at hf
    exact hf rfl
  rw [findJobElements, containerCascade, hcfg]
  rw [show optTruthy (some c) = [c] from by simp [optTruthy, hc]]
  rw [List.cons_append, findGo_cons_ok doc c _ found hq]
  rw [if_neg (by simpa [List.isEmpty_iff] using hfound)]
  rw [if_neg (by simpa [List.isEmpty_iff] using hf)]

/-- A document for the C5 witness: the custom selector and the built-in
`[data-jk]` selector each match a different keyword-bearing element. -/
def c5CustomElem : Elem :=
  { textContent :=
      "Custom container with a great job opportunity inside it today".toList,
    attrs := [],
    subq := [],
    qAHref := none,
    closestAHref := none,
    qAnyHref := none }

def c5Doc : Doc :=
  [(".my-jobs", QRes.ok [c5CustomElem]),
   ("[data-jk]", QRes.ok [demoElem])]

def c5Config : SelectorConfig :=
  ⟨some ".my-jobs", none, none, none, none, none, none⟩

/-- Witness for C5: with both the custom selector and a built-in matching
non-empty filtered sets, discovery returns exactly the custom matches. -/
theorem c5_witness :
    findJobElements c5Doc c5Config = [c5CustomElem] := by
  have h := c5_custom_selector_priority c5Doc c5Config ".my-jobs"
    [c5CustomElem] (by decide) (by decide) (by decide) (by decide)
    ⟨"[data-jk]", by decide, [demoElem], by decide, by decide⟩
  rw [h]
  decide

/-- **C7.** A selector whose query fails is skipped and the cascade or
fallback chain continues with the next selector, both at discovery time
(`findJobElements`) and at field-extraction time (`getTextBySelectors`):
removing the failing selector from the list does not change the result,
wherever it occurs, and no failure escapes as an exception (both
functions are total). -/
theorem c7_selector_failure_skipped :
    (∀ (doc : Doc) (pre post : List String) (bad : String),
      docQueryAll doc bad = QRes.fail →
      findGo doc (pre ++ bad :: post) = findGo doc (pre ++ post)) ∧
    (∀ (e : Elem) (pre post : List String) (bad : String),
      e.querySel bad = QRes.fail →
      getTextBySelectors e (pre ++ bad :: post) =
        getTextBySelectors e (pre ++ post)) := by
  constructor
  · intro doc pre post bad hbad
    induction pre with
    | nil =>
      rw [List.nil_append, List.nil_append, findGo_cons_fail doc bad post hbad]
    | cons s t ih =>
      rw [List.cons_append, List.cons_append]
      rcases hq : docQueryAll doc s with _ | found
      · rw [findGo_cons_fail doc s _ hq, findGo_cons_fail doc s _ hq]
        exact ih
      · rw [findGo_cons_ok doc s _ found hq, findGo_cons_ok doc s _ found hq]
        by_cases hfe : found.isEmpty = true
        · rw [if_pos hfe, if_pos hfe, ih]
        · rw [if_neg hfe, if_neg hfe]
          by_cases hfi : (found.filter contentFilter).isEmpty = true
          · rw [if_pos hfi, if_pos hfi, ih]
          · rw [if_neg hfi, if_neg hfi]
  · intro e pre post bad hbad
    induction pre with
    | nil =>
      rw [List.nil_append, List.nil_append]
      by_cases hb : bad = ""
      · subst hb
        rw [getTextBySelectors_cons_empty]
      · rw [getTextBySelectors_cons_fail e bad post hb hbad]
    | cons s t ih =>
      rw [List.cons_append, List.cons_append]
      by_cases hs : s = ""
      · subst hs
        rw [getTextBySelectors_cons_empty, getTextBySelectors_cons_empty, ih]
      · rcases hq : e.querySel s with _ | el
        · rw [getTextBySelectors_cons_fail e s _ hs hq,
            getTextBySelectors_cons_fail e s _ hs hq, ih]
        · cases el with
          | none =>
            rw [getTextBySelectors_cons_none e s _ hs hq,
              getTextBySelectors_cons_none e s _ hs hq, ih]
          | some el =>
            rw [getTextBySelectors_cons_some e s _ el hs hq,
              getTextBySelectors_cons_some e s _ el hs hq]

/-- A document and an element whose recorded selector `((bad` fails, as a
malformed selector's query would. -/
def c7Doc : Doc :=
  [("((bad", QRes.fail), ("li", QRes.ok [demoElem])]

def c7Elem : Elem :=
  { textContent := [],
    attrs := [],
    subq := [("((bad", QRes.fail), ("h2", QRes.ok (some demoTitleEl))],
    qAHref := none,
    closestAHref := none,
    qAnyHref := none }

/-- Witness for C7: dropping the failing selector changes nothing, at
discovery and at field extraction, on concrete inputs. -/
theorem c7_witness :
    findGo c7Doc ["((bad", "li"] = findGo c7Doc ["li"] ∧
    getTextBySelectors c7Elem ["((bad", "h2"] =
      getTextBySelectors c7Elem ["h2"] :=
  ⟨c7_selector_failure_skipped.1 c7Doc [] ["li"] "((bad" (by decide),
   c7_selector_failure_skipped.2 c7Elem [] ["h2"] "((bad" (by decide)⟩

/-- A sub-element with an empty value: no `title`, no `aria-label`, and
whitespace-only text content. -/
def c4EmptyEl : ElemData := ⟨"   ".toList, []⟩

/-- A sub-element whose value is the non-empty string `X`. -/
def c4XEl : ElemData := ⟨"X".toList, []⟩

/-- An element where selector `s1` matches the empty-valued sub-element
and `s2` matches the one whose value is `X`. -/
def c4Elem : Elem :=
  ⟨[], [], [("s1", QRes.ok (some c4EmptyEl)), ("s2", QRes.ok (some c4XEl))],
   none, none, none⟩

/-- **C4, counterexample.**  `getTextBySelectors` returns at the FIRST
selector that matches an element, even when that element's value is
empty: with `s1` matching an empty-valued element and `s2` one whose
value is `X`, the extracted field is the empty string, not `X` — so the
field does not equal the value of the first selector yielding a
non-empty result. -/
theorem c4_counterexample :
    elemValue c4EmptyEl = [] ∧
    elemValue c4XEl = "X".toList ∧
    getTextBySelectors c4Elem ["s1", "s2"] = some [] ∧
    orEmpty (getTextBySelectors c4Elem ["s1", "s2"]) ≠ elemValue c4XEl := by
  refine ⟨by decide, by decide, by decide, by decide⟩

/-- **C4, amended.**  The first selector in order whose query succeeds
and matches an element determines the field: the value is that element's
`title` attribute if non-empty, else its `aria-label` if non-empty, else
its trimmed text content — possibly the empty string.  Falsy, failing
and non-matching selectors are skipped; if no selector matches an
element, the field is the empty string, not an error. -/
theorem c4_first_element_match_wins :
    (∀ (e : Elem) (pre : List String) (sel : String) (rest : List String)
       (el : ElemData),
      (∀ s ∈ pre, s = "" ∨ e.querySel s = QRes.fail ∨
        e.querySel s = QRes.ok none) →
      sel ≠ "" → e.querySel sel = QRes.ok (some el) →
      getTextBySelectors e (pre ++ sel :: rest) = some (elemValue el) ∧
      orEmpty (getTextBySelectors e (pre ++ sel :: rest)) = elemValue el) ∧
    (∀ (e : Elem) (sels : List String),
      (∀ s ∈ sels, s = "" ∨ e.querySel s = QRes.fail ∨
        e.querySel s = QRes.ok none) →
      getTextBySelectors e sels = none ∧
      orEmpty (getTextBySelectors e sels) = []) := by
  constructor
  · intro e pre sel rest el hpre hsel hq
    suffices h : getTextBySelectors e (pre ++ sel :: rest)
        = some (elemValue el) by
      exact ⟨h, by rw [h]; rfl⟩
    induction pre with
    | nil =>
      rw [List.nil_append]
      exact getTextBySelectors_cons_some e sel rest el hsel hq
    | cons s t ih =>
      rw [List.cons_append]
      have hstep : getTextBySelectors e (s :: (t ++ sel :: rest)) =
          getTextBySelectors e (t ++ sel :: rest) := by
        by_cases hse : s = ""
        · subst hse
          exact getTextBySelectors_cons_empty e _
        · rcases hpre s (List.mem_cons_self s t) with hs | hs | hs
          · exact absurd hs hse
          · exact getTextBySelectors_cons_fail e s _ hse hs
          · exact getTextBySelectors_cons_none e s _ hse hs
      rw [hstep]
      exact ih (fun x hx => hpre x (List.mem_cons_of_mem _ hx))
  · intro e sels hsels
    suffices h : getTextBySelectors e sels = none by
      exact ⟨h, by rw [h]; rfl⟩
    induction sels with
    | nil => rfl
    | cons s t ih =>
      have hstep : getTextBySelectors e (s :: t) = getTextBySelectors e t := by
        by_cases hse : s = ""
        · subst hse
          exact getTextBySelectors_cons_empty e t
        · rcases hsels s (List.mem_cons_self s t) with hs | hs | hs
          · exact absurd hs hse
          · exact getTextBySelectors_cons_fail e s t hse hs
          · exact getTextBySelectors_cons_none e s t hse hs
      rw [hstep]
      exact ih (fun x hx => hsels x (List.mem_cons_of_mem _ hx))

/-- An element with one failing selector and one match whose value is
`X`, for the C4 witness. -/
def c4PreElem : Elem :=
  ⟨[], [], [("bad", QRes.fail), ("s2", QRes.ok (some c4XEl))],
   none, none, none⟩

/-- Witness for the amended C4: skipping a falsy, a failing and a
non-matching selector, the first selector matching an element supplies
the field value; a list with no matching selector gives the empty
string. -/
theorem c4_witness :
    getTextBySelectors c4PreElem (["", "bad", "nomatch"] ++ ["s2"]) =
      some (elemValue c4XEl) ∧
    orEmpty (getTextBySelectors c4PreElem ["nomatch", "bad"]) = [] :=
  ⟨(c4_first_element_match_wins.1 c4PreElem ["", "bad", "nomatch"] "s2" []
      c4XEl (by decide) (by decide) (by decide)).1,
   (c4_first_element_match_wins.2 c4PreElem ["nomatch", "bad"]
      (by decide)).2⟩

/-- **C6, counterexample.**  The href rewriting tests
`href.startsWith('http')`, not "is a full absolute URL": the href
`httpjobs` has no scheme at all (it is not an absolute URL and does not
begin with `/`), yet it is returned unchanged instead of being
concatenated to the base URL after a `/` as the claim requires. -/
theorem c6_counterexample :
    parseUrl "httpjobs".toList = none ∧
    startsWithB "httpjobs".toList ['/'] = false ∧
    resolveHref "https://example.com/search".toList "httpjobs".toList =
      QRes.ok "httpjobs".toList ∧
    QRes.ok "httpjobs".toList ≠
      QRes.ok ("https://example.com/search".toList ++ ['/'] ++
        "httpjobs".toList) := by
  refine ⟨by decide, by decide, by decide, by decide⟩

/-- **C6, amended.**  For a parseable base URL: a found href beginning
with `/` gets the base URL's protocol and host prepended; a href
beginning with the four characters `http` is used unchanged; any other
href is the base URL, a `/` separator and the href concatenated; and the
url is the empty string when no link element, no href attribute, or only
an empty href is found. -/
theorem c6_url_resolution (baseUrl href : Str) (e : Elem) (u : ParsedUrl)
    (hu : parseUrl baseUrl = some u) :
    (startsWithB href ['/'] = true →
      resolveHref baseUrl href =
        QRes.ok (u.protocol ++ ['/', '/'] ++ u.host ++ href)) ∧
    (startsWithB href ['/'] = false →
      startsWithB href "http".toList = true →
      resolveHref baseUrl href = QRes.ok href) ∧
    (startsWithB href ['/'] = false →
      startsWithB href "http".toList = false →
      resolveHref baseUrl href = QRes.ok (baseUrl ++ ['/'] ++ href)) ∧
    (findLink e = none → extractUrl e baseUrl = QRes.ok []) ∧
    (∀ link, findLink e = some link → getAttrD link "href" = none →
      extractUrl e baseUrl = QRes.ok []) ∧
    (∀ link, findLink e = some link → getAttrD link "href" = some [] →
      extractUrl e baseUrl = QRes.ok []) := by
  refine ⟨?_, ?_, ?_, ?_, ?_, ?_⟩
  · intro h
    rw [resolveHref, if_pos h, hu]
  · intro h1 h2
    rw [resolveHref, if_neg (by rw [h1]; decide), if_neg (by rw [h2]; decide)]
  · intro h1 h2
    rw [resolveHref, if_neg (by rw [h1]; decide), if_pos (by rw [h2]; rfl)]
  · intro h
    rw [extractUrl, h]
  · intro link h1 h2
    have hred : extractUrl e baseUrl =
        (match getAttrD link "href" with
         | none => QRes.ok []
         | some href' =>
           if href' = [] then QRes.ok [] else resolveHref baseUrl href') := by
      rw [extractUrl, h1]
    rw [hred, h2]
  · intro link h1 h2
    have hred : extractUrl e baseUrl =
        (match getAttrD link "href" with
         | none => QRes.ok []
         | some href' =>
           if href' = [] then QRes.ok [] else resolveHref baseUrl href') := by
      rw [extractUrl, h1]
    rw [hred, h2]
    rfl

def c6Base : Str := "https://example.com/search".toList

def c6U : ParsedUrl := ⟨"https:".toList, "example.com".toList⟩

def c6NoLink : Elem := ⟨[], [], [], none, none, none⟩

/-- Witness for the amended C6, at the worked examples: a rooted href is
resolved against scheme and host, an `http`-prefixed href is unchanged,
any other href is appended to the base URL, and no link gives the empty
string. -/
theorem c6_witness :
    resolveHref c6Base "/jobs/123".toList =
      QRes.ok "https://example.com/jobs/123".toList ∧
    resolveHref c6Base "https://other.com/x".toList =
      QRes.ok "https://other.com/x".toList ∧
    resolveHref c6Base "jobs/123".toList =
      QRes.ok "https://example.com/search/jobs/123".toList ∧
    extractUrl c6NoLink c6Base = QRes.ok [] := by
  have h1 := c6_url_resolution c6Base "/jobs/123".toList c6NoLink c6U
    (by decide)
  have h2 := c6_url_resolution c6Base "https://other.com/x".toList c6NoLink
    c6U (by decide)
  have h3 := c6_url_resolution c6Base "jobs/123".toList c6NoLink c6U
    (by decide)
  refine ⟨?_, h2.2.1 (by decide) (by decide), ?_,
    h1.2.2.2.1 (by decide)⟩
  · rw [h1.1 (by decide)]
    decide
  · rw [h3.2.2.1 (by decide) (by decide)]
    decide
